import Mathlib

/-!
Verification of the System-Monitor repository core.

The development shallowly embeds the parts of `system_monitor.py` and
`streamlit_app.py` that the specification's claims are about:

* `get_size` (system_monitor.py, lines 17-22): byte-count rendering.
  Python's float arithmetic is modelled over `ℚ`; every division performed
  here is by 1024, which is exact both for IEEE doubles and for rationals,
  so the model agrees with the source on all values considered.
* the process-list sort of `get_processes` (line 95) and the hard-coded
  fallback list of `safe_get_processes` (streamlit_app.py, lines 276-282);
* the fallback generators `safe_cpu_percent`, `safe_memory_info`,
  `safe_network_info` (streamlit_app.py, lines 52-96), with
  `random.uniform` / `random.randint` draws passed in as explicit inputs;
* the sampler cycle `update_metrics` (lines 98-126) with its
  append-then-evict history buffers and its outer try/except;
* the CSV exporter `export_to_csv` (system_monitor.py, lines 207-231).

Fallible external calls (psutil) are modelled as `Except Unit` inputs:
`Except.ok v` is a successful reading, `Except.error ()` an exception
raised by the call.
-/

namespace SystemMonitor

/-! ### get_size (system_monitor.py lines 17-22) -/

/-- Rendering of a number with two decimal places, as Python's
`f"{x:.2f}"` does: round to a whole number of hundredths, print the whole
part, a dot, and two digits.  The model is used on non-negative values
whose hundredths are exact (no rounding happens), where Python's float
formatting produces the same digits. -/
def format2 (q : ℚ) : String :=
  let cents : ℤ := ⌊q * 100 + 1/2⌋
  toString (cents / 100) ++ "." ++
    (if cents % 100 < 10 then "0" else "") ++ toString (cents % 100)

/-- The unit prefixes iterated over in `get_size`:
`for unit in ['', 'K', 'M', 'G', 'T', 'P']`. -/
def sizeUnits : List String := ["", "K", "M", "G", "T", "P"]

/-- The loop body of `get_size`: test `bytes < 1024`, return the formatted
string on success, otherwise divide by 1024 and move to the next unit.
When the unit list is exhausted the Python function falls off the end and
implicitly returns `None`, modelled by `Option.none`. -/
def get_size_go : ℚ → List String → Option String
  | _, [] => none
  | b, u :: us =>
    if b < 1024 then some (format2 b ++ u ++ "B") else get_size_go (b / 1024) us

/-- `get_size(bytes)` from system_monitor.py. -/
def get_size (bytes : ℚ) : Option String :=
  get_size_go bytes sizeUnits

/-! ### History buffers of the sampler cycle (streamlit_app.py lines 104-121)

Each of the three buffers is updated per cycle by
`history.append(v)` followed by `if len(history) > 100: history.pop(0)`,
i.e. append at the tail, then drop the head if the length exceeds 100. -/

/-- One append-then-evict step of a rolling history buffer. -/
def historyPush {α : Type} (buf : List α) (x : α) : List α :=
  if (buf ++ [x]).length > 100 then (buf ++ [x]).drop 1 else buf ++ [x]

/-! ### Fallback generators (streamlit_app.py lines 52-96)

The `random.uniform` / `random.randint` draws are passed in as explicit
arguments; a claim quantifying over "any sequence of random walk steps"
quantifies over those arguments. -/

/-- `max(min(v, 100), 0)` as written in the CPU and memory fallbacks. -/
def clamp100 (x : ℚ) : ℚ := max (min x 100) 0

/-- The `except` branch of `safe_cpu_percent` (lines 56-59):
`last = 25 if not cpu_history else cpu_history[-1]`, then
`max(min(last + delta, 100), 0)` with `delta = random.uniform(-5, 5)`. -/
def safe_cpu_percent_fallback (cpu_history : List ℚ) (delta : ℚ) : ℚ :=
  clamp100 ((if cpu_history = [] then 25 else cpu_history.getLastD 25) + delta)

/-- The fallback CPU% random walk: starting from an empty history, each
step appends the synthesized sample (the per-cycle eviction of the
history buffer never changes the last element, so it does not affect the
generated values). -/
def cpu_fallback_walk (deltas : List ℚ) : List ℚ :=
  deltas.foldl (fun h d => h ++ [safe_cpu_percent_fallback h d]) []

/-- The `DummyMemory` object built in the `except` branch of
`safe_memory_info` (lines 65-74). -/
structure DummyMemory where
  percent : ℚ
  total : ℚ
  available : ℚ
  used : ℚ
deriving DecidableEq

/-- The `except` branch of `safe_memory_info`: percent is a clamped random
walk step from the last memory sample (default 65), and total/available/
used are derived from it against a fixed 16 GiB total. -/
def safe_memory_info_fallback (memory_history : List ℚ) (delta : ℚ) : DummyMemory :=
  let last : ℚ := if memory_history = [] then 65 else memory_history.getLastD 65
  let percent := clamp100 (last + delta)
  let total : ℚ := 16 * 1024 * 1024 * 1024
  let available := total * (1 - percent / 100)
  { percent := percent, total := total, available := available,
    used := total - available }

/-- The `DummyNetwork` object built in the `except` branch of
`safe_network_info` (lines 82-96). -/
structure DummyNetwork where
  bytes_sent : ℕ
  bytes_recv : ℕ
  packets_sent : ℕ
  packets_recv : ℕ
deriving DecidableEq

/-- One fallback network sample: byte counters advance from the carried
last values by the random increments, packet counts are freshly drawn. -/
def safe_network_info_fallback (lastSent lastRecv ds dr ps pr : ℕ) : DummyNetwork :=
  { bytes_sent := lastSent + ds, bytes_recv := lastRecv + dr,
    packets_sent := ps, packets_recv := pr }

/-- The random draws of one fallback network invocation:
`ds = randint(5000, 15000)`, `dr = randint(10000, 30000)`,
`ps = randint(900, 1100)`, `pr = randint(1800, 2200)`. -/
structure NetStep where
  ds : ℕ
  dr : ℕ
  ps : ℕ
  pr : ℕ
deriving DecidableEq

/-- Successive fallback network invocations: the produced `bytes_sent` /
`bytes_recv` are written back to session state (lines 94-95) and carried
into the next call. -/
def network_fallback_walk : List NetStep → ℕ → ℕ → List DummyNetwork
  | [], _, _ => []
  | s :: rest, lastSent, lastRecv =>
    let sample := safe_network_info_fallback lastSent lastRecv s.ds s.dr s.ps s.pr
    sample :: network_fallback_walk rest sample.bytes_sent sample.bytes_recv

/-! ### Process list (system_monitor.py lines 86-95, streamlit_app.py lines 270-282) -/

/-- One entry of the process table:
`{pid, name, username, memory_percent, cpu_percent}`. -/
structure ProcessRecord where
  pid : ℕ
  name : String
  username : String
  memory_percent : ℚ
  cpu_percent : ℚ
deriving DecidableEq

/-- Insertion step of a stable descending sort by `cpu_percent`: the new
element passes an element only when strictly greater, so equal keys keep
their original relative order. -/
def insertByCpuDesc (p : ProcessRecord) : List ProcessRecord → List ProcessRecord
  | [] => [p]
  | q :: qs =>
    if q.cpu_percent ≤ p.cpu_percent then p :: q :: qs else q :: insertByCpuDesc p qs

/-- `get_processes` (line 95) applied to the enumerated process batch:
`sorted(processes, key=lambda p: p['cpu_percent'], reverse=True)`.
Python's `sorted` is a stable sort, and with `reverse=True` equal keys
keep enumeration order; a stable descending-by-key sort is extensionally
unique, realized here as an insertion sort. -/
def get_processes (procs : List ProcessRecord) : List ProcessRecord :=
  procs.foldr insertByCpuDesc []

/-- The hard-coded placeholder dataset returned by the `except` branch of
`safe_get_processes` (streamlit_app.py lines 276-282), in its literal
order; the cpu shares read 0.1, 0.5, 1.0, 4.0, 3.0. -/
def fallbackProcesses : List ProcessRecord :=
  [⟨4, "System", "SYSTEM", 1/10, 1/10⟩,
   ⟨504, "svchost.exe", "SYSTEM", 3/2, 1/2⟩,
   ⟨812, "explorer.exe", "USER", 3, 1⟩,
   ⟨1012, "chrome.exe", "USER", 5, 4⟩,
   ⟨1230, "StreamlitApp.exe", "USER", 5/2, 3⟩]

/-- The three-process input of the spec's example, with CPU shares
0.1, 3.0, 0.5 in enumeration order. -/
def procsExample : List ProcessRecord :=
  [⟨1, "a", "u", 0, 1/10⟩, ⟨2, "b", "u", 0, 3⟩, ⟨3, "c", "u", 0, 1/2⟩]

/-! ### Sampler cycle (streamlit_app.py lines 98-126)

The per-family psutil calls are modelled as `Except Unit` inputs:
`Except.ok v` a successful reading, `Except.error ()` a raised
exception, which the `safe_*` wrappers catch. -/

/-- The sampler's mutable session state: the three history buffers and
the `last_bytes_*` session keys used by the network fallback
(`st.session_state.get(..., default)` yields the default when the key was
never written, modelled by `Option.getD`). -/
structure SamplerState where
  cpu_history : List ℚ
  memory_history : List ℚ
  network_history : List (ℕ × ℕ)
  last_bytes_sent : Option ℕ
  last_bytes_recv : Option ℕ

/-- `safe_cpu_percent` (lines 52-59): the psutil reading if it succeeds,
otherwise the fallback random-walk value. -/
def safe_cpu_percent (src : Except Unit ℚ) (cpu_history : List ℚ) (delta : ℚ) : ℚ :=
  match src with
  | .ok v => v
  | .error _ => safe_cpu_percent_fallback cpu_history delta

/-- `safe_memory_info` (lines 61-74): the psutil reading if it succeeds,
otherwise the synthesized `DummyMemory`. -/
def safe_memory_info (src : Except Unit DummyMemory) (memory_history : List ℚ)
    (delta : ℚ) : DummyMemory :=
  match src with
  | .ok m => m
  | .error _ => safe_memory_info_fallback memory_history delta

/-- `safe_network_info` (lines 76-96): on success the psutil counters are
returned and the session's `last_bytes_*` keys are untouched; on failure
the fallback sample is produced and written back to the session keys. -/
def safe_network_info (src : Except Unit DummyNetwork)
    (lastSent lastRecv : Option ℕ) (ds dr ps pr : ℕ) :
    DummyNetwork × Option ℕ × Option ℕ :=
  match src with
  | .ok n => (n, lastSent, lastRecv)
  | .error _ =>
    let sample := safe_network_info_fallback (lastSent.getD 1000000)
      (lastRecv.getD 5000000) ds dr ps pr
    (sample, some sample.bytes_sent, some sample.bytes_recv)

/-- One cycle of `update_metrics` (lines 102-121): sample each family
through its `safe_*` wrapper and append to the corresponding rolling
history buffer (the network buffer stores only the two byte counters). -/
def update_metrics_cycle (srcCpu : Except Unit ℚ) (srcMem : Except Unit DummyMemory)
    (srcNet : Except Unit DummyNetwork) (cpuDelta memDelta : ℚ) (ds dr ps pr : ℕ)
    (s : SamplerState) : SamplerState :=
  let cpu := safe_cpu_percent srcCpu s.cpu_history cpuDelta
  let s1 := { s with cpu_history := historyPush s.cpu_history cpu }
  let mem := safe_memory_info srcMem s1.memory_history memDelta
  let s2 := { s1 with memory_history := historyPush s1.memory_history mem.percent }
  let res := safe_network_info srcNet s2.last_bytes_sent s2.last_bytes_recv ds dr ps pr
  { s2 with
      network_history := historyPush s2.network_history (res.1.bytes_sent, res.1.bytes_recv),
      last_bytes_sent := res.2.1,
      last_bytes_recv := res.2.2 }

/-- One iteration of the `while True` loop of `update_metrics`
(lines 100-126).  The body result carries the state (an exception may
leave behind partially updated buffers) and whether an exception escaped
to the outer `except`; a clean cycle ends in `time.sleep(1)`, the
`except` arm reports the error and ends in `time.sleep(5)`. -/
def update_metrics_iteration (body : SamplerState → SamplerState × Bool)
    (s : SamplerState) : SamplerState × ℕ :=
  let r := body s
  if r.2 then (r.1, 5) else (r.1, 1)

/-- `n` iterations of the sampler loop, returning the final state and the
sleep duration of every iteration in order: the loop is total in `n`, so
no outcome of any iteration terminates it. -/
def update_metrics_loop (body : SamplerState → SamplerState × Bool) :
    ℕ → SamplerState → SamplerState × List ℕ
  | 0, s => (s, [])
  | n + 1, s =>
    let r := update_metrics_iteration body s
    let rest := update_metrics_loop body n r.1
    (rest.1, r.2 :: rest.2)

/-- The per-iteration outcomes (did the body raise?) along the same run
of the loop. -/
def update_metrics_raises (body : SamplerState → SamplerState × Bool) :
    ℕ → SamplerState → List Bool
  | 0, _ => []
  | n + 1, s =>
    (body s).2 :: update_metrics_raises body n (update_metrics_iteration body s).1

/-! ### CSV export (system_monitor.py lines 207-231) -/

/-- `export_to_csv`, as the list of CSV rows it writes.  `clock` models
the stream of successive `datetime.now().isoformat()` results; the code
evaluates it exactly once (line 213), before any data row is written, so
only `clock 0` is ever consumed. -/
def export_to_csv (clock : ℕ → String)
    (system_info cpu_info memory_info network_info : List (String × String)) :
    List (List String) :=
  let timestamp := clock 0
  ["Timestamp", "Metric", "Value"] ::
    (system_info.map (fun kv => [timestamp, "System_" ++ kv.1, kv.2]) ++
     cpu_info.map (fun kv => [timestamp, "CPU_" ++ kv.1, kv.2]) ++
     memory_info.map (fun kv => [timestamp, "Memory_" ++ kv.1, kv.2]) ++
     network_info.map (fun kv => [timestamp, "Network_" ++ kv.1, kv.2]))

end SystemMonitor

namespace SystemMonitor

/-- Evaluation helper: once the hundredths count is known, `format2` is a
concrete string computation over `ℤ`. -/
theorem format2_eq (q : ℚ) (c : ℤ) (h : ⌊q * 100 + 1/2⌋ = c) :
    format2 q = toString (c / 100) ++ "." ++
      (if c % 100 < 10 then "0" else "") ++ toString (c % 100) := by
  simp only [format2, h]

/-- C9: `get_size` maps 0 to "0.00B", 1024 to "1.00KB", 1536 to "1.50KB"
and 1073741824 to "1.00GB". -/
theorem get_size_examples :
    get_size 0 = some "0.00B" ∧ get_size 1024 = some "1.00KB" ∧
    get_size 1536 = some "1.50KB" ∧ get_size 1073741824 = some "1.00GB" := by
  refine ⟨?_, ?_, ?_, ?_⟩
  · have h1 : (0:ℚ) < 1024 := by norm_num
    simp only [get_size, sizeUnits, get_size_go, if_pos h1]
    rw [format2_eq 0 0 (by norm_num)]
    decide
  · have h1 : ¬ ((1024:ℚ) < 1024) := by norm_num
    have h2 : ((1024:ℚ)/1024) = 1 := by norm_num
    have h3 : (1:ℚ) < 1024 := by norm_num
    simp only [get_size, sizeUnits, get_size_go, if_neg h1, h2, if_pos h3]
    rw [format2_eq 1 100 (by norm_num)]
    decide
  · have h1 : ¬ ((1536:ℚ) < 1024) := by norm_num
    have h2 : ((1536:ℚ)/1024) = 3/2 := by norm_num
    have h3 : (3:ℚ)/2 < 1024 := by norm_num
    simp only [get_size, sizeUnits, get_size_go, if_neg h1, h2, if_pos h3]
    rw [format2_eq (3/2) 150 (by norm_num)]
    decide
  · have h1 : ¬ ((1073741824:ℚ) < 1024) := by norm_num
    have h2 : ((1073741824:ℚ)/1024) = 1048576 := by norm_num
    have h3 : ¬ ((1048576:ℚ) < 1024) := by norm_num
    have h4 : ((1048576:ℚ)/1024) = 1024 := by norm_num
    have h5 : ¬ ((1024:ℚ) < 1024) := by norm_num
    have h6 : ((1024:ℚ)/1024) = 1 := by norm_num
    have h7 : (1:ℚ) < 1024 := by norm_num
    simp only [get_size, sizeUnits, get_size_go, if_neg h1, h2, if_neg h3, h4,
      if_neg h5, h6, if_pos h7]
    rw [format2_eq 1 100 (by norm_num)]
    decide

/-- C3 counterexample: `get_size` is not total over byte counts.  At
`1024 ^ 6` bytes the unit loop is exhausted and the Python function falls
off its end, returning `None`. -/
theorem get_size_overflow_none : get_size ((1024:ℚ) ^ 6) = none := by
  norm_num [get_size, sizeUnits, get_size_go]

/-- C3 (amended): for every byte count strictly below `1024 ^ 6`,
`get_size` returns a rendered string: a two-decimal rendering of the
scaled value together with a suffix drawn from `sizeUnits` followed by
"B". -/
theorem get_size_total_below_limit (b : ℚ) (_h0 : 0 ≤ b) (hlim : b < 1024 ^ 6) :
    ∃ u ∈ sizeUnits, ∃ v : ℚ, v < 1024 ∧
      get_size b = some (format2 v ++ u ++ "B") := by
  by_cases h1 : b < 1024
  · exact ⟨"", by simp [sizeUnits], b, h1,
      by simp only [get_size, sizeUnits, get_size_go, if_pos h1]⟩
  by_cases h2 : b / 1024 < 1024
  · exact ⟨"K", by simp [sizeUnits], b / 1024, h2,
      by simp only [get_size, sizeUnits, get_size_go, if_neg h1, if_pos h2]⟩
  by_cases h3 : b / 1024 / 1024 < 1024
  · exact ⟨"M", by simp [sizeUnits], b / 1024 / 1024, h3,
      by simp only [get_size, sizeUnits, get_size_go, if_neg h1, if_neg h2, if_pos h3]⟩
  by_cases h4 : b / 1024 / 1024 / 1024 < 1024
  · exact ⟨"G", by simp [sizeUnits], b / 1024 / 1024 / 1024, h4,
      by simp only [get_size, sizeUnits, get_size_go, if_neg h1, if_neg h2, if_neg h3,
        if_pos h4]⟩
  by_cases h5 : b / 1024 / 1024 / 1024 / 1024 < 1024
  · exact ⟨"T", by simp [sizeUnits], b / 1024 / 1024 / 1024 / 1024, h5,
      by simp only [get_size, sizeUnits, get_size_go, if_neg h1, if_neg h2, if_neg h3,
        if_neg h4, if_pos h5]⟩
  have hp : (0:ℚ) < 1024 := by norm_num
  have h6 : b / 1024 / 1024 / 1024 / 1024 / 1024 < 1024 := by
    rw [div_lt_iff₀ hp, div_lt_iff₀ hp, div_lt_iff₀ hp, div_lt_iff₀ hp, div_lt_iff₀ hp]
    exact hlim.trans_le (by norm_num)
  exact ⟨"P", by simp [sizeUnits], b / 1024 / 1024 / 1024 / 1024 / 1024, h6,
    by simp only [get_size, sizeUnits, get_size_go, if_neg h1, if_neg h2, if_neg h3,
      if_neg h4, if_neg h5, if_pos h6]⟩

/-- Witness for C3 (amended), at the concrete byte count 1536. -/
theorem get_size_total_below_limit_witness :
    (0:ℚ) ≤ 1536 ∧ (1536:ℚ) < 1024 ^ 6 ∧
      ∃ u ∈ sizeUnits, ∃ v : ℚ, v < 1024 ∧
        get_size 1536 = some (format2 v ++ u ++ "B") :=
  ⟨by norm_num, by norm_num,
    get_size_total_below_limit 1536 (by norm_num) (by norm_num)⟩

/-- Closed form of iterating `historyPush` from any buffer of length at
most 100: the result is the concatenated stream with everything but the
last 100 elements dropped. -/
theorem foldl_historyPush {α : Type} :
    ∀ (xs b : List α), b.length ≤ 100 →
      xs.foldl historyPush b = (b ++ xs).drop (b.length + xs.length - 100)
  | [], b, hb => by
      have h : b.length - 100 = 0 := Nat.sub_eq_zero_of_le hb
      simp [h]
  | x :: t, b, hb => by
      rw [List.foldl_cons]
      by_cases h : (b ++ [x]).length > 100
      · have hb100 : b.length = 100 := by
          simp only [List.length_append, List.length_cons, List.length_nil] at h
          omega
        have hpush : historyPush b x = (b ++ [x]).drop 1 := by
          simp only [historyPush]
          rw [if_pos h]
        have hlen : ((b ++ [x]).drop 1).length ≤ 100 := by
          simp only [List.length_drop, List.length_append, List.length_cons,
            List.length_nil]
          omega
        rw [hpush, foldl_historyPush t _ hlen]
        have e1 : ((b ++ [x]).drop 1).length + t.length - 100 = t.length := by
          simp only [List.length_drop, List.length_append, List.length_cons,
            List.length_nil]
          omega
        have e2 : b.length + (x :: t).length - 100 = t.length + 1 := by
          simp only [List.length_cons]
          omega
        have h1 : (b ++ [x]).drop 1 ++ t = ((b ++ [x]) ++ t).drop 1 :=
          (List.drop_append_of_le_length (by simp)).symm
        have h2 : (b ++ [x]) ++ t = b ++ x :: t := by simp
        rw [e1, e2, h1, List.drop_drop, h2, Nat.add_comm 1 t.length]
      · have hpush : historyPush b x = b ++ [x] := by
          simp only [historyPush]
          rw [if_neg h]
        have hlen : (b ++ [x]).length ≤ 100 := Nat.le_of_not_lt h
        rw [hpush, foldl_historyPush t _ hlen]
        have e1 : (b ++ [x]).length + t.length - 100 =
            b.length + (x :: t).length - 100 := by
          simp only [List.length_append, List.length_cons, List.length_nil]
          omega
        have h2 : (b ++ [x]) ++ t = b ++ x :: t := by simp
        rw [e1, h2]

/-- C1: the rolling history buffers of the sampler cycle never exceed 100
elements at cycle boundaries, and once at least 100 values have been
appended the buffer holds exactly the most recent 100 values in arrival
order (FIFO eviction of the oldest). -/
theorem update_metrics_history_bounded_fifo {α : Type} (xs : List α) :
    (xs.foldl historyPush ([] : List α)).length ≤ 100 ∧
    (100 ≤ xs.length → xs.foldl historyPush [] = xs.drop (xs.length - 100)) := by
  have h := foldl_historyPush xs [] (by simp)
  simp only [List.nil_append, List.length_nil, Nat.zero_add] at h
  refine ⟨?_, fun _ => h⟩
  rw [h]
  simp only [List.length_drop]
  omega

/-- Witness for C1, on a stream of 120 appended values. -/
theorem update_metrics_history_bounded_fifo_witness :
    100 ≤ (List.range 120).length ∧
      (List.range 120).foldl historyPush [] = (List.range 120).drop 20 := by
  have h := (update_metrics_history_bounded_fifo (List.range 120)).2 (by simp)
  exact ⟨by simp, by simpa using h⟩

/-- The clamp used by the CPU and memory fallbacks stays within [0, 100]
for every argument. -/
theorem clamp100_bounds (x : ℚ) : 0 ≤ clamp100 x ∧ clamp100 x ≤ 100 :=
  ⟨le_max_right _ _, max_le (min_le_right _ _) (by norm_num)⟩

/-- Auxiliary induction for C4: extending any in-range history by fallback
CPU steps keeps every element in range. -/
theorem cpu_fallback_walk_aux (deltas : List ℚ) :
    ∀ h : List ℚ, (∀ y ∈ h, 0 ≤ y ∧ y ≤ 100) →
      ∀ x ∈ deltas.foldl (fun h d => h ++ [safe_cpu_percent_fallback h d]) h,
        0 ≤ x ∧ x ≤ 100 := by
  induction deltas with
  | nil =>
    intro h hh x hx
    exact hh x hx
  | cons d rest ih =>
    intro h hh x hx
    rw [List.foldl_cons] at hx
    refine ih _ ?_ x hx
    intro y hy
    rcases List.mem_append.1 hy with h1 | h1
    · exact hh y h1
    · have hy2 : y = safe_cpu_percent_fallback h d := List.mem_singleton.1 h1
      subst hy2
      unfold safe_cpu_percent_fallback
      exact clamp100_bounds _
/-- C4: every value synthesized by the fallback CPU% random walk lies in
[0, 100], for every sequence of steps of every length. -/
theorem safe_cpu_percent_fallback_in_range (deltas : List ℚ) (x : ℚ)
    (hx : x ∈ cpu_fallback_walk deltas) : 0 ≤ x ∧ x ≤ 100 :=
  cpu_fallback_walk_aux deltas [] (by simp) x hx

/-- Witness for C4: a single step with draw +10 from the empty history
produces the sample 35, which is in range. -/
theorem safe_cpu_percent_fallback_in_range_witness :
    (35:ℚ) ∈ cpu_fallback_walk [10] ∧ 0 ≤ (35:ℚ) ∧ (35:ℚ) ≤ 100 := by
  have e : clamp100 (25 + 10) = 35 := by
    rw [clamp100, show ((25:ℚ) + 10) = 35 by norm_num,
      min_eq_left (by norm_num : (35:ℚ) ≤ 100),
      max_eq_left (by norm_num : (0:ℚ) ≤ 35)]
  have hmem : (35:ℚ) ∈ cpu_fallback_walk [10] := by
    simp [cpu_fallback_walk, safe_cpu_percent_fallback, e]
  exact ⟨hmem, safe_cpu_percent_fallback_in_range [10] 35 hmem⟩

/-- C6: every fallback memory sample satisfies
`used + available = total`, `used = total * percent / 100`, has the fixed
total of 16 GiB, and a percentage clamped to [0, 100]. -/
theorem safe_memory_info_fallback_identities (memory_history : List ℚ) (delta : ℚ) :
    (safe_memory_info_fallback memory_history delta).used +
        (safe_memory_info_fallback memory_history delta).available =
      (safe_memory_info_fallback memory_history delta).total ∧
    (safe_memory_info_fallback memory_history delta).used =
      (safe_memory_info_fallback memory_history delta).total *
        (safe_memory_info_fallback memory_history delta).percent / 100 ∧
    (safe_memory_info_fallback memory_history delta).total =
      16 * 1024 * 1024 * 1024 ∧
    0 ≤ (safe_memory_info_fallback memory_history delta).percent ∧
    (safe_memory_info_fallback memory_history delta).percent ≤ 100 := by
  simp only [safe_memory_info_fallback]
  refine ⟨by ring, by ring, by trivial, ?_, ?_⟩
  · exact (clamp100_bounds _).1
  · exact (clamp100_bounds _).2

/-- C5: across every sequence of successive fallback network invocations
whose byte increments are in the `randint` ranges drawn by the code, the
synthesized byte counters strictly increase from each sample to the next
(in particular they are non-decreasing); packet counts are fresh draws
each call, unconstrained by this relation. -/
theorem safe_network_info_fallback_monotone (steps : List NetStep)
    (lastSent lastRecv : ℕ)
    (hs : ∀ s ∈ steps, 5000 ≤ s.ds ∧ s.ds ≤ 15000 ∧ 10000 ≤ s.dr ∧ s.dr ≤ 30000) :
    List.Chain' (fun a b : DummyNetwork =>
        a.bytes_sent < b.bytes_sent ∧ a.bytes_recv < b.bytes_recv)
      (network_fallback_walk steps lastSent lastRecv) := by
  induction steps generalizing lastSent lastRecv with
  | nil => simp [network_fallback_walk]
  | cons s rest ih =>
    rw [network_fallback_walk]
    apply List.chain'_cons'.mpr
    constructor
    · intro y hy
      cases rest with
      | nil => simp [network_fallback_walk] at hy
      | cons s2 r2 =>
        rw [network_fallback_walk] at hy
        simp only [List.head?_cons, Option.mem_def, Option.some.injEq] at hy
        subst hy
        have h1 : 5000 ≤ s2.ds := (hs s2 (by simp)).1
        have h2 : 10000 ≤ s2.dr := (hs s2 (by simp)).2.2.1
        simp only [safe_network_info_fallback]
        omega
    · exact ih _ _ (fun x hx => hs x (List.mem_cons_of_mem s hx))

/-- Witness for C5: two concrete invocations with in-range byte draws in
which the packet draws decrease while the byte counters strictly
increase. -/
theorem safe_network_info_fallback_monotone_witness :
    (∀ s ∈ [NetStep.mk 5000 10000 1100 2200, NetStep.mk 6000 11000 900 1800],
        5000 ≤ s.ds ∧ s.ds ≤ 15000 ∧ 10000 ≤ s.dr ∧ s.dr ≤ 30000) ∧
    List.Chain' (fun a b : DummyNetwork =>
        a.bytes_sent < b.bytes_sent ∧ a.bytes_recv < b.bytes_recv)
      (network_fallback_walk
        [NetStep.mk 5000 10000 1100 2200, NetStep.mk 6000 11000 900 1800]
        1000000 5000000) := by
  have h : ∀ s ∈ [NetStep.mk 5000 10000 1100 2200, NetStep.mk 6000 11000 900 1800],
      5000 ≤ s.ds ∧ s.ds ≤ 15000 ∧ 10000 ≤ s.dr ∧ s.dr ≤ 30000 := by decide
  exact ⟨h, safe_network_info_fallback_monotone _ 1000000 5000000 h⟩

/-- Inserting into the stable sort is a permutation step. -/
theorem insertByCpuDesc_perm (p : ProcessRecord) :
    ∀ l : List ProcessRecord, (insertByCpuDesc p l).Perm (p :: l)
  | [] => List.Perm.refl _
  | q :: qs => by
    simp only [insertByCpuDesc]
    by_cases h : q.cpu_percent ≤ p.cpu_percent
    · rw [if_pos h]
    · rw [if_neg h]
      exact ((insertByCpuDesc_perm p qs).cons q).trans (List.Perm.swap p q qs)

/-- Members of an insertion are the inserted element or old members. -/
theorem mem_insertByCpuDesc {x p : ProcessRecord} {l : List ProcessRecord}
    (hx : x ∈ insertByCpuDesc p l) : x = p ∨ x ∈ l := by
  have := (insertByCpuDesc_perm p l).mem_iff.1 hx
  simpa using this

/-- Insertion preserves the descending-by-cpu ordering. -/
theorem pairwise_insertByCpuDesc (p : ProcessRecord) :
    ∀ l : List ProcessRecord,
      l.Pairwise (fun a b => b.cpu_percent ≤ a.cpu_percent) →
      (insertByCpuDesc p l).Pairwise (fun a b => b.cpu_percent ≤ a.cpu_percent)
  | [], _ => by simp [insertByCpuDesc]
  | q :: qs, hl => by
    simp only [insertByCpuDesc]
    by_cases h : q.cpu_percent ≤ p.cpu_percent
    · rw [if_pos h]
      refine List.Pairwise.cons ?_ hl
      intro b hb
      rcases List.mem_cons.1 hb with rfl | hb2
      · exact h
      · exact le_trans ((List.pairwise_cons.1 hl).1 b hb2) h
    · rw [if_neg h]
      refine List.Pairwise.cons ?_
        (pairwise_insertByCpuDesc p qs (List.pairwise_cons.1 hl).2)
      intro b hb
      rcases mem_insertByCpuDesc hb with rfl | hb2
      · exact le_of_lt (lt_of_not_le h)
      · exact (List.pairwise_cons.1 hl).1 b hb2

/-- Stability of the insertion step: restricted to any one cpu value, an
insertion behaves like consing in front, because an element never passes
another element with the same (or smaller) cpu value. -/
theorem filter_insertByCpuDesc (c : ℚ) (p : ProcessRecord) :
    ∀ l : List ProcessRecord,
      (insertByCpuDesc p l).filter (fun x => x.cpu_percent = c) =
        (p :: l).filter (fun x => x.cpu_percent = c)
  | [] => rfl
  | q :: qs => by
    simp only [insertByCpuDesc]
    by_cases h : q.cpu_percent ≤ p.cpu_percent
    · rw [if_pos h]
    · rw [if_neg h]
      by_cases hp : p.cpu_percent = c
      · have hq : ¬ (q.cpu_percent = c) := fun hqq => h (by rw [hqq, hp])
        simp [List.filter_cons, hp, hq, filter_insertByCpuDesc c p qs]
      · simp [List.filter_cons, hp, filter_insertByCpuDesc c p qs]

/-- C2 counterexample: the fallback placeholder dataset of
`safe_get_processes` is returned as hard-coded and is not ordered by
descending cpu_percent (already its first two entries read 0.1 then
0.5). -/
theorem fallbackProcesses_not_sorted :
    ¬ fallbackProcesses.Pairwise (fun a b => b.cpu_percent ≤ a.cpu_percent) := by
  intro h
  rw [fallbackProcesses] at h
  have h2 := (List.pairwise_cons.1 h).1 _ (List.mem_cons_self _ _)
  norm_num at h2

/-- C2 (amended): `get_processes` sorts every enumerated batch by
descending cpu_percent with ties kept in enumeration order (a stable
sort, stated as: the output is a sorted permutation whose restriction to
each cpu value is unchanged), and on CPU shares [0.1, 3.0, 0.5] the
output order is [3.0, 0.5, 0.1]; the claim's extension to the fallback
placeholder dataset of `safe_get_processes` fails, per the
counterexample. -/
theorem get_processes_sorted_stable :
    (∀ procs : List ProcessRecord,
        (get_processes procs).Pairwise (fun a b => b.cpu_percent ≤ a.cpu_percent) ∧
        (get_processes procs).Perm procs ∧
        ∀ c : ℚ, (get_processes procs).filter (fun x => x.cpu_percent = c) =
          procs.filter (fun x => x.cpu_percent = c)) ∧
    (get_processes procsExample).map (fun p => p.cpu_percent) = [3, 1/2, 1/10] := by
  constructor
  · intro procs
    induction procs with
    | nil => exact ⟨List.Pairwise.nil, List.Perm.refl _, fun _ => rfl⟩
    | cons a l ih =>
      obtain ⟨hpw, hperm, hfil⟩ := ih
      refine ⟨pairwise_insertByCpuDesc a _ hpw,
        (insertByCpuDesc_perm a _).trans (hperm.cons a), ?_⟩
      intro c
      have hstep : get_processes (a :: l) = insertByCpuDesc a (get_processes l) := rfl
      rw [hstep, filter_insertByCpuDesc, List.filter_cons, List.filter_cons, hfil c]
  · norm_num [get_processes, procsExample, insertByCpuDesc]

/-- Appending through `historyPush` always leaves the new element at the
tail of the buffer. -/
theorem historyPush_getLast? {α : Type} (b : List α) (x : α) :
    (historyPush b x).getLast? = some x := by
  rw [historyPush]
  by_cases h : (b ++ [x]).length > 100
  · rw [if_pos h]
    cases b with
    | nil => simp at h
    | cons y ys =>
      rw [List.drop_append_of_le_length (by simp)]
      exact List.getLast?_concat _
  · rw [if_neg h]
    exact List.getLast?_concat _

/-- C7: when the memory source raises while the CPU and network sources
succeed, the cycle completes without propagating an exception (the model
is a total function into `SamplerState`), the appended CPU and network
samples are the real readings, the appended memory sample is the
fallback value, and the network session keys are untouched (they are
only written on the network fallback path). -/
theorem update_metrics_cycle_partial_degradation (c : ℚ) (n : DummyNetwork)
    (cpuDelta memDelta : ℚ) (ds dr ps pr : ℕ) (s : SamplerState) :
    ((update_metrics_cycle (.ok c) (.error ()) (.ok n)
        cpuDelta memDelta ds dr ps pr s).cpu_history).getLast? = some c ∧
    ((update_metrics_cycle (.ok c) (.error ()) (.ok n)
        cpuDelta memDelta ds dr ps pr s).memory_history).getLast? =
      some ((safe_memory_info_fallback s.memory_history memDelta).percent) ∧
    ((update_metrics_cycle (.ok c) (.error ()) (.ok n)
        cpuDelta memDelta ds dr ps pr s).network_history).getLast? =
      some (n.bytes_sent, n.bytes_recv) ∧
    (update_metrics_cycle (.ok c) (.error ()) (.ok n)
        cpuDelta memDelta ds dr ps pr s).last_bytes_sent = s.last_bytes_sent ∧
    (update_metrics_cycle (.ok c) (.error ()) (.ok n)
        cpuDelta memDelta ds dr ps pr s).last_bytes_recv = s.last_bytes_recv := by
  simp only [update_metrics_cycle, safe_cpu_percent, safe_memory_info,
    safe_network_info]
  exact ⟨historyPush_getLast? _ _, historyPush_getLast? _ _,
    historyPush_getLast? _ _, by trivial, by trivial⟩

/-- C8: the sampler loop never terminates on an error: for every body
behaviour and every number of iterations the loop performs exactly that
many cycles, and each cycle's sleep is 5 seconds when the body raised
and 1 second when it completed. -/
theorem update_metrics_loop_robust (body : SamplerState → SamplerState × Bool)
    (n : ℕ) (s : SamplerState) :
    (update_metrics_loop body n s).2.length = n ∧
    (update_metrics_loop body n s).2 =
      (update_metrics_raises body n s).map (fun raised => if raised then 5 else 1) := by
  induction n generalizing s with
  | zero => exact ⟨rfl, rfl⟩
  | succ m ih =>
    obtain ⟨ihlen, ihmap⟩ := ih (update_metrics_iteration body s).1
    constructor
    · simp only [update_metrics_loop, List.length_cons, ihlen]
    · simp only [update_metrics_loop, update_metrics_raises, List.map_cons, ihmap]
      cases hb : (body s).2 <;>
        simp [update_metrics_iteration, hb]

/-- C10: every data row written by one CSV export carries the timestamp
captured once before the category loops; consequently any two data rows
of one export have equal Timestamp columns. -/
theorem export_to_csv_single_timestamp (clock : ℕ → String)
    (system_info cpu_info memory_info network_info : List (String × String)) :
    (∀ row ∈ (export_to_csv clock system_info cpu_info memory_info
        network_info).drop 1, row.head? = some (clock 0)) ∧
    (∀ r1 ∈ (export_to_csv clock system_info cpu_info memory_info
        network_info).drop 1,
     ∀ r2 ∈ (export_to_csv clock system_info cpu_info memory_info
        network_info).drop 1, r1.head? = r2.head?) := by
  have key : ∀ row ∈ (export_to_csv clock system_info cpu_info memory_info
      network_info).drop 1, row.head? = some (clock 0) := by
    intro row hrow
    simp only [export_to_csv, List.drop_succ_cons, List.drop_zero,
      List.mem_append, List.mem_map] at hrow
    rcases hrow with ((⟨kv, _, rfl⟩ | ⟨kv, _, rfl⟩) | ⟨kv, _, rfl⟩) | ⟨kv, _, rfl⟩ <;>
      rfl
  exact ⟨key, fun r1 h1 r2 h2 => (key r1 h1).trans (key r2 h2).symm⟩

/-- Witness for C10: a concrete export with one system row and one CPU
row, checked on its first data row. -/
theorem export_to_csv_single_timestamp_witness :
    ["T", "System_OS", "Linux"] ∈
      (export_to_csv (fun _ => "T") [("OS", "Linux")] [("Usage", "5%")] [] []).drop 1 ∧
    (["T", "System_OS", "Linux"] : List String).head? = some "T" := by
  have hmem : ["T", "System_OS", "Linux"] ∈
      (export_to_csv (fun _ => "T") [("OS", "Linux")] [("Usage", "5%")] [] []).drop 1 := by
    simp [export_to_csv]
  exact ⟨hmem,
    (export_to_csv_single_timestamp (fun _ => "T") [("OS", "Linux")]
      [("Usage", "5%")] [] []).1 _ hmem⟩

end SystemMonitor
